import Mathlib

/-!
Verification of `firedrake/preconditioners/patch.py`.

Shallow embedding conventions:
* Python ints are modelled as `Nat`/`Int`; numpy integer arrays as `List Int`/`List Nat`.
* Fallible Python code (exceptions: `IndexError`, `AssertionError`, `ValueError`,
  `NotImplementedError`, `AttributeError`, failed tuple unpacking) is modelled with
  `Option`/`Except`: `none`/`.error` means the call raises.
* Floating point mesh coordinates are modelled as exact rationals `ℚ`; the claims
  settled here depend only on comparisons and exact linspace arithmetic.
-/

namespace Patch

/-! ## Function spaces, for `bcdofs` (patch.py lines 337-375)

A Firedrake function-space tree as navigated by `bcdofs`: the root is either a
plain space (`base`) or a mixed space whose children are non-mixed (Firedrake
does not build nested mixed spaces; `DirichletBC._indices` chains are at most
`[mixed child, vector component]`).

A `FLeaf` records the data `bcdofs` queries:
* `valueSize`: `W.value_size` (`scalar v ow gh` is a space whose element has
  value size `v`; `vector n ow gh` is a space whose element is a UFL
  `VectorElement` with `n` scalar components, so `value_size == n`);
* `owned`: `W.dof_dset.size` (number of process-owned nodes);
* `ghost`: number of halo ("ghost") nodes, so `W.node_count = owned + ghost`
  and `W.dof_count = (owned + ghost) * value_size`.

`isinstance(Z.ufl_element(), VectorElement)` holds exactly for `vector`,
`isinstance(Z.ufl_element(), MixedElement)` (after the `VectorElement` test)
exactly for `mixed`. -/

inductive FLeaf where
  | scalar (valueSize owned ghost : Nat)
  | vector (comps owned ghost : Nat)
deriving DecidableEq

def FLeaf.valueSize : FLeaf → Nat
  | .scalar v _ _ => v
  | .vector n _ _ => n

def FLeaf.owned : FLeaf → Nat
  | .scalar _ ow _ => ow
  | .vector _ ow _ => ow

/-- `W.dof_count`: total number of dofs including ghosts. -/
def FLeaf.dofCount : FLeaf → Nat
  | .scalar v ow gh => (ow + gh) * v
  | .vector n ow gh => (ow + gh) * n

inductive FSpace where
  | base (l : FLeaf)
  | mixed (subs : List FLeaf)
deriving DecidableEq

/-- `Z.value_size`. -/
def FSpace.valueSize : FSpace → Nat
  | .base l => l.valueSize
  | .mixed subs => (subs.map FLeaf.valueSize).sum

/-- `Z.dof_dset.size` (owned node count). -/
def FSpace.dofDsetSize : FSpace → Nat
  | .base l => l.owned
  | .mixed subs => (subs.map FLeaf.owned).sum

/-- The offset contribution of one step into child `idx` of a mixed space
(patch.py lines 353-357):
`sum(Z.sub(j).dof_count for j in range(idx))` when `ghost`, else
`sum(Z.sub(j).dof_dset.size * Z.sub(j).value_size for j in range(idx))`. -/
def mixedOffset (ghost : Bool) (subs : List FLeaf) (idx : Nat) : Nat :=
  if ghost then ((subs.take idx).map FLeaf.dofCount).sum
  else ((subs.take idx).map (fun W => W.owned * W.valueSize)).sum

/-- The subspace-path loop of `bcdofs` (patch.py lines 348-361).

State: current space `Z`, remaining `bc._indices`, accumulated `offset`, and
`pv`, which is `some k` iff the current `Z` was reached by selecting a
component of a `VectorElement` space of `value_size` `k` (so that, at the end,
`Z.parent is not None and isinstance(Z.parent.ufl_element(), VectorElement)`
holds iff `pv` is `some k`, with `bs = Z.parent.value_size = k`).

`none` models an exception: `.sub` on a plain element
(`NotImplementedError("How are you taking a .sub?")`), an out-of-range child
index (`IndexError` from `Z.sub(idx)`), or a vector component selected before
the end of the chain (the `assert i == len(indices)-1`).  A component of a
vector space is the space `.base (.scalar 1 ow gh)` (its `value_size` is 1,
which is what the source asserts, and it shares the parent node set). -/
def bcdofsWalk (ghost : Bool) : FSpace → List Nat → Nat → Option Nat →
    Option (FSpace × Nat × Option Nat)
  | Z, [], off, pv => some (Z, off, pv)
  | Z, idx :: rest, off, _ =>
    match Z with
    | .base (.scalar _ _ _) => none
    | .base (.vector n ow gh) =>
      if idx < n ∧ rest = [] then
        bcdofsWalk ghost (.base (.scalar 1 ow gh)) rest (off + idx) (some n)
      else none
    | .mixed subs =>
      match subs[idx]? with
      | some li => bcdofsWalk ghost (.base li) rest (off + mixedOffset ghost subs idx) none
      | none => none

/-- The block size `bs` used after the walk (patch.py lines 363-370). -/
def blockSize (Zf : FSpace) (pv : Option Nat) : Nat :=
  match pv with
  | some k => k
  | none => Zf.valueSize

/-- `stop - start`, i.e. the number of components enumerated
(patch.py lines 363-370: `start = 0`, and `stop = 1` under a vector parent,
else `stop = bs`). -/
def numComponents (Zf : FSpace) (pv : Option Nat) : Nat :=
  match pv with
  | some _ => 1
  | none => Zf.valueSize

/-- `bcdofs(bc, ghost)` (patch.py lines 337-375): the global dofs fixed by a
DirichletBC, in the numbering given by concatenating the subspaces.
`Z` is the root of `bc.function_space()`, `indices` is `bc._indices`,
`nodes` is `bc.nodes`.  Returns
`numpy.concatenate([nodes*bs + j for j in range(start, stop)]) + offset`,
with `nodes` filtered to `nodes[nodes < Z.dof_dset.size]` when `ghost` is
false. -/
def bcdofs (Z : FSpace) (indices : List Nat) (nodes : List Int) (ghost : Bool) :
    Option (List Int) :=
  match bcdofsWalk ghost Z indices 0 none with
  | none => none
  | some (Zf, off, pv) =>
    let bs := blockSize Zf pv
    let stop := numComponents Zf pv
    let nodes' := if ghost then nodes else
      nodes.filter (fun n => decide (n < (Zf.dofDsetSize : Int)))
    some ((((List.range stop).map
      (fun (j : Nat) => nodes'.map (fun n => n * (bs : Int) + (j : Int)))).flatten).map
        (fun x => x + (off : Int)))

/-! ## PlaneSmoother (patch.py lines 378-449)

The patch constructor: `sort_entities` bins the eligible entities of the
DMPlex chart along one axis, `__call__` parses the sweep option string and
concatenates the bins of every sweep into the patch list.

The DMPlex is modelled as its chart: a list of entities, each carrying its
point id, its representative coordinate vector (`PlaneSmoother.coords`
computes it as the mean of the closure coordinates inside PETSc; here it is
simply part of the input data), and the value of the `"pyop2_ghost"` label at
the point (`-1` when the point is unlabelled, following
`DMPlex.getLabelValue`).  Coordinates are exact rationals. -/

structure PEntity where
  point : Nat
  coords : List ℚ
  labelValue : Int
deriving DecidableEq

/-- `select_entity` (patch.py lines 378-389), with `exclude="pyop2_ghost"` as
passed by `sort_entities`: keep the point iff the exclude label does not mark
it (its label value is `-1`). -/
def select_entity (labelValue : Int) : Bool := labelValue == -1

/-- The `filter(select, range(*dm.getChart()))` of `sort_entities`. -/
def eligible (chart : List PEntity) : List PEntity :=
  chart.filter (fun e => select_entity e.labelValue)

/-- `z[1][axis]`: coordinate of an entity along `axis`. -/
def axisCoord (axis : Nat) (e : PEntity) : ℚ := e.coords.getD axis 0

/-- `keyfunc` (patch.py lines 411-413):
`(coords[axis],) + tuple(coords[:axis] + coords[axis+1:])`. -/
def keyOf (axis : Nat) (c : List ℚ) : List ℚ :=
  c.getD axis 0 :: (c.take axis ++ c.drop (axis + 1))

/-- Python tuple comparison (lexicographic `<=`), on the key tuples. -/
def lexLe : List ℚ → List ℚ → Bool
  | [], _ => true
  | _ :: _, [] => false
  | a :: as, b :: bs => if a < b then true else if b < a then false else lexLe as bs

/-- One step of a stable insertion sort: insert `x` after every element
`y` with `le y x` (so later-arriving equal elements stay behind, exactly the
stability guarantee of Python's `sorted`). -/
def insertBy {α : Type*} (le : α → α → Bool) (x : α) : List α → List α
  | [] => [x]
  | y :: ys => if le y x then y :: insertBy le x ys else x :: y :: ys

/-- Stable sort by a boolean total preorder.  Python's `sorted` is a stable
sort; any two stable sorts with the same comparison agree elementwise, so
this insertion sort is observationally identical to it. -/
def sortedBy {α : Type*} (le : α → α → Bool) (l : List α) : List α :=
  l.foldl (fun acc x => insertBy le x acc) []

/-- The comparison `sorted(entities, key=keyfunc)` sorts by. -/
def sweepKey (axis : Nat) (a b : PEntity) : Bool :=
  lexLe (keyOf axis a.coords) (keyOf axis b.coords)

/-- `sorted(entities, key=keyfunc, reverse=(dir == -1))` (patch.py line 415):
`reverse=True` behaves as if each comparison were reversed, keeping equal
elements in their original order — i.e. a stable sort by the flipped
comparison. -/
def sweepSorted (axis : Nat) (dir : Int) (ents : List PEntity) : List PEntity :=
  if dir = -1 then sortedBy (fun a b => sweepKey axis b a) ents
  else sortedBy (sweepKey axis) ents

/-- `numpy.linspace(minx, maxx, ndiv+1)` (patch.py line 417): `ndiv+1` evenly
spaced values from `minx` to `maxx`; for `ndiv = 0` (`num = 1`) it is just
`[minx]`. -/
def linspace (minx maxx : ℚ) (ndiv : Nat) : List ℚ :=
  if ndiv = 0 then [minx]
  else (List.range (ndiv + 1)).map
    (fun (k : Nat) => minx + (k : ℚ) * (maxx - minx) / (ndiv : ℚ))

/-- `numpy.searchsorted(sorted_values, v)` with the default `side='left'`
(patch.py line 420): on an ascending-sorted array this is the number of
entries strictly smaller than `v`. -/
def searchsortedLeft (l : List ℚ) (v : ℚ) : Nat :=
  (l.filter (fun c => decide (c < v))).length

/-- The bin-slicing loop of `sort_entities` (patch.py lines 422-425): for the
cut positions `indices = [i0, ..., i_ndiv]` produce the slices
`entities[indices[k]:indices[k+1]]` for `k in range(ndiv)` followed by the
trailing bin `entities[indices[-1]:]`. -/
def binsOf (pts : List Nat) : List Nat → List (List Nat)
  | [] => []
  | [i] => [pts.drop i]
  | i :: j :: rest => ((pts.take j).drop i) :: binsOf pts (j :: rest)

/-- `PlaneSmoother.sort_entities` (patch.py lines 401-427).  Returns the list
of bins of entity point ids, or `none` when the code raises (`min()`/`max()`
of an empty eligible-entity sequence). -/
def sort_entities (chart : List PEntity) (axis : Nat) (dir : Int) (ndiv : Nat) :
    Option (List (List Nat)) :=
  match eligible chart with
  | [] => none
  | e0 :: tl =>
    let minx := tl.foldl (fun m e => min m (axisCoord axis e)) (axisCoord axis e0)
    let maxx := tl.foldl (fun m e => max m (axisCoord axis e)) (axisCoord axis e0)
    let s := sweepSorted axis dir (e0 :: tl)
    let pts := s.map PEntity.point
    let cs := s.map (axisCoord axis)
    let csDir := if dir = -1 then cs.reverse else cs
    let indices := (linspace minx maxx ndiv).map (searchsortedLeft csDir)
    some (binsOf pts indices)

/-- Sequential `for`-loop with exception propagation: apply `f` to each
element in order, aborting at the first failure. -/
def mapMOpt {α β : Type*} (f : α → Option β) : List α → Option (List β)
  | [] => some []
  | a :: rest =>
    match f a with
    | none => none
    | some b =>
      match mapMOpt f rest with
      | none => none
      | some bs => some (b :: bs)

/-- `int(s)` on a decimal digit string: `none` models the `ValueError` on an
empty or non-digit string. -/
def digitsToNat : List Char → Option Nat
  | [] => none
  | cs => if cs.all Char.isDigit
          then some (cs.foldl (fun n c => n * 10 + (c.toNat - 48)) 0) else none

/-- Parsing of one sweep specification (patch.py lines 439-441):
`axis = int(sweep[0])`, `dir = {'+': +1, '-': -1}[sweep[1]]`,
`ndiv = int(sweep[2:])`; `none` models the `IndexError`/`KeyError`/
`ValueError` raised on malformed input. -/
def parseSweep (s : List Char) : Option (Nat × Int × Nat) :=
  match s with
  | a :: d :: rest =>
    if a.isDigit then
      match (if d = '+' then some (1 : Int) else
             if d = '-' then some (-1 : Int) else none) with
      | some dirv =>
        match digitsToNat rest with
        | some nd => some (a.toNat - 48, dirv, nd)
        | none => none
      | none => none
    else none
  | _ => none

/-- `sweeps.split(':')`. -/
def splitOnColon : List Char → List (List Char)
  | [] => [[]]
  | c :: rest =>
    if c = ':' then [] :: splitOnColon rest
    else
      match splitOnColon rest with
      | h :: t => (c :: h) :: t
      | [] => [[c]]

/-- `PlaneSmoother.__call__` (patch.py lines 429-449), with the sweep option
string already fetched from the option database.  For each sweep, in order,
the bins of `sort_entities` are appended to the patch list; the returned
iteration set `createStride(size=len(patches), first=0, step=1)` is modelled
by its size. -/
def planeSmoother (chart : List PEntity) (sweeps : List Char) :
    Option (List (List Nat) × Nat) :=
  match mapMOpt parseSweep (splitOnColon sweeps) with
  | none => none
  | some specs =>
    match mapMOpt (fun t => sort_entities chart t.1 t.2.1 t.2.2) specs with
    | none => none
    | some binss => some (binss.flatten, binss.flatten.length)

/-! ## PatchKernelBuilder.set_coefficients (patch.py lines 23-74)

UFL data as seen by `set_coefficients`.  `type(coefficient.ufl_element()) ==
MixedElement` is an exact type test, so only `UFLElement.mixed` matches it
(a legacy-UFL `VectorElement`, although a subclass of `MixedElement`, has a
different exact type and is covered by `plain`).  A UFL `Coefficient` is
identified by its globally unique `count` (UFL equality and hashing — hence
`frozenset` membership in `unsplit_coefficients` — go by it), and carries its
function space `FunctionSpace(domain, element)`. -/

inductive UFLElement where
  | plain (famId : Nat)
  | mixed (subs : List UFLElement)

structure Coefficient where
  count : Nat
  domain : Nat
  element : UFLElement

/-- `e.sub_elements()`. -/
def UFLElement.subElements : UFLElement → List UFLElement
  | .mixed subs => subs
  | _ => []

/-- The per-coefficient body of the `set_coefficients` loop (patch.py lines
52-63): `orig` is `form_data.reduced_coefficients[i]`, `coeff` is
`form_data.function_replace_map[orig]`, `fresh` is the next free UFL
coefficient count (each `Coefficient(FunctionSpace(domain, element))` built
for a sub-element takes the next count, making it fresh).  Returns the
coefficients registered for this form coefficient and the updated count. -/
def coefficientStep (unsplit : List Nat) (orig coeff : Coefficient) (fresh : Nat) :
    List Coefficient × Nat :=
  match coeff.element with
  | .mixed subs =>
    if orig.count ∈ unsplit then ([coeff], fresh)
    else ((subs.enum).map (fun p => ⟨fresh + p.1, coeff.domain, p.2⟩),
          fresh + subs.length)
  | _ => ([coeff], fresh)

/-- `integral_data.enabled_coefficients`: which of the reduced coefficients
the integral requires. -/
structure IntegralData where
  enabledCoefficients : List Bool

/-- The `form_data` fields read by `set_coefficients`:
`reduced_coefficients`, the images under `function_replace_map` (pointwise),
and `original_coefficient_positions`. -/
structure FormData where
  reducedCoefficients : List Coefficient
  replacedCoefficients : List Coefficient
  originalCoefficientPositions : List Nat

/-- The `for i in range(len(integral_data.enabled_coefficients))` loop of
`set_coefficients`, over the rows `(enabled, orig, replaced, position)`:
an enabled row contributes `coefficientStep`'s coefficients to the argument
list and its original position to `kernel.coefficient_numbers` (one position
per form coefficient, regardless of splitting); a disabled row contributes
nothing. -/
def setCoefficientsAux (unsplit : List Nat) :
    List (Bool × Coefficient × Coefficient × Nat) → Nat →
      List Coefficient × List Nat
  | [], _ => ([], [])
  | (en, orig, coeff, pos) :: rest, fresh =>
    if en then
      ((coefficientStep unsplit orig coeff fresh).1 ++
        (setCoefficientsAux unsplit rest (coefficientStep unsplit orig coeff fresh).2).1,
       pos :: (setCoefficientsAux unsplit rest (coefficientStep unsplit orig coeff fresh).2).2)
    else setCoefficientsAux unsplit rest fresh

def zip4 (en : List Bool) (red rep : List Coefficient) (ps : List Nat) :
    List (Bool × Coefficient × Coefficient × Nat) :=
  (en.zip (red.zip (rep.zip ps))).map (fun x => (x.1, x.2.1, x.2.2.1, x.2.2.2))

/-- `PatchKernelBuilder.set_coefficients` (patch.py lines 41-74): the
coefficient argument list (`self.coefficient_args` gets one `_coefficient`
argument per entry, in order) and `kernel.coefficient_numbers`.
`unsplit` holds the counts of `self.unsplit_coefficients`. -/
def set_coefficients (unsplit : List Nat) (idata : IntegralData) (fdata : FormData)
    (fresh : Nat) : List Coefficient × List Nat :=
  setCoefficientsAux unsplit
    (zip4 idata.enabledCoefficients fdata.reducedCoefficients
      fdata.replacedCoefficients fdata.originalCoefficientPositions) fresh

/-! ## Kernel compiler validation: matrix_funptr / residual_funptr
(patch.py lines 193-214 and 274-293)

Only the validation and control flow around `compile_form`'s output is
modelled; `compile_form` itself is an external collaborator, so the list of
compiled kernels' metadata (`kinfo`) is an input.  `Except` errors model the
raised exceptions. -/

inductive IntegralType where
  | cell
  | interiorFacet
  | exteriorFacet
  | otherKind
deriving DecidableEq

inductive SubdomainId where
  | otherwise
  | sub (n : Nat)
deriving DecidableEq

structure KInfo where
  subdomainId : SubdomainId
  integralType : IntegralType
deriving DecidableEq

inductive PatchErr where
  | testTrialMismatch
  | subdomain
  | integralKind
  | unpack
  | stateSpaceMismatch
  | attributeError
deriving DecidableEq

/-- The `for kernel in kernels` loop of `matrix_funptr` (patch.py lines
208-270): each kernel is validated (`subdomain_id` must be `"otherwise"`,
`integral_type` must be `cell` or `interior_facet`, else
`NotImplementedError`) and then appended to the cell or interior-facet list;
an exception aborts the whole call with nothing returned. -/
def matrixKernelLoop : List KInfo → Except PatchErr (List KInfo × List KInfo)
  | [] => .ok ([], [])
  | k :: rest =>
    if k.subdomainId ≠ .otherwise then .error .subdomain
    else if ¬ (k.integralType = .cell ∨ k.integralType = .interiorFacet) then
      .error .integralKind
    else
      match matrixKernelLoop rest with
      | .error e => .error e
      | .ok (cs, fs) =>
        if k.integralType = .cell then .ok (k :: cs, fs) else .ok (cs, k :: fs)

/-- `matrix_funptr(form, state)` (patch.py lines 193-271), abstracted to its
validation structure: `test`/`trial` are the argument function spaces
(identified by id), `kinfos` the kernels returned by `compile_form`. -/
def matrix_funptr (test trial : Nat) (kinfos : List KInfo) :
    Except PatchErr (List KInfo × List KInfo) :=
  if test ≠ trial then .error .testTrialMismatch
  else matrixKernelLoop kinfos

/-- `residual_funptr(form, state)` (patch.py lines 274-334), abstracted to
its validation structure.  `formArgSpaces` are the function spaces of the
form's arguments (`test, = ...` unpacking fails unless there is exactly one);
`state` is `None` or the state's function space — the source calls
`state.function_space()` (line 278) *before* its `if state is not None` test
(line 281), so a `None` state raises `AttributeError` there and the
`interface = None` branch is unreachable; `kinfos` is `compile_form`'s
output (`kernel, = ...` unpacking requires exactly one kernel). -/
def residual_funptr (formArgSpaces : List Nat) (state : Option Nat)
    (kinfos : List KInfo) : Except PatchErr KInfo :=
  match formArgSpaces with
  | [test] =>
    match state with
    | none => .error .attributeError
    | some s =>
      if s ≠ test then .error .stateSpaceMismatch
      else
        match kinfos with
        | [k] =>
          if k.subdomainId ≠ .otherwise then .error .subdomain
          else if k.integralType ≠ .cell then .error .integralKind
          else .ok k
        | _ => .error .unpack
  | _ => .error .unpack

/-! ## JITModule (patch.py lines 183-187) -/

/-- `JITModule._cache_key(cls, *args, **kwargs)` returns `None` for every
input. -/
def JITModule_cache_key {α : Type*} (_args : α) : Option (List Nat) := none

/-- Modelled from the spec: the pyop2 JIT compilation-cache layer
(`seq.JITModule`, which `JITModule` subclasses, is not part of this
repository).  Per the spec's collaborator boundary, building a module
consults a process-wide cache keyed by `_cache_key`; a `None` key disables
caching, so the module is specialized from scratch on every call and the
cache is left untouched (no compiled-module state is shared between two
compilations). -/
def jitCompile {α : Type*} (compile : α → Nat) (cache : List (List Nat × Nat))
    (args : α) : Nat × List (List Nat × Nat) :=
  match JITModule_cache_key args with
  | some key =>
    match cache.lookup key with
    | some m => (m, cache)
    | none => (compile args, (key, compile args) :: cache)
  | none => (compile args, cache)

/-! ## DatArg.c_buffer_scatter_vec (patch.py lines 150-170) -/

/-- Semantics of the C scatter statement emitted by `c_buffer_scatter_vec`:
for each `o in range(dim)` it emits
`if (map_val >= 0) {*(ind + o) op= buf[i_0*dim + o + mxofs*dim];}` where
`op` is plain assignment for WRITE access and `+=` otherwise, and
`map_val = map[n*arity + idx]` does not depend on `o`.  The destination is
modelled as a map from addresses to values, with `ind` the base address of
the per-entity slot; executing the statement folds the guarded updates over
`o`. -/
def c_buffer_scatter_vec_sem (isWrite : Bool) (dim : Nat) (mapVal : Int)
    (dest : Int → Int) (ind : Int) (buf : Nat → Int) (i0 mx : Nat) : Int → Int :=
  (List.range dim).foldl
    (fun d (o : Nat) =>
      if 0 ≤ mapVal then
        fun a => if a = ind + (o : Int)
          then (if isWrite then buf (i0 * dim + o + mx * dim)
                else d a + buf (i0 * dim + o + mx * dim))
          else d a
      else d)
    dest

/-! ### Helper lemmas for `bcdofs` -/

theorem bcdofsWalk_append (ghost : Bool) (l1 : List Nat) :
    ∀ (Z : FSpace) (l2 : List Nat) (off : Nat) (pv : Option Nat),
    bcdofsWalk ghost Z (l1 ++ l2) off pv =
      (bcdofsWalk ghost Z l1 off pv).bind
        (fun r => bcdofsWalk ghost r.1 l2 r.2.1 r.2.2) := by
  induction l1 with
  | nil =>
    intro Z l2 off pv
    simp [bcdofsWalk]
  | cons idx rest ih =>
    intro Z l2 off pv
    match Z with
    | .base (.scalar v ow gh) =>
      simp [bcdofsWalk]
    | .base (.vector n ow gh) =>
      by_cases hn : idx < n
      · rcases rest with _ | ⟨r0, rest'⟩
        · rcases l2 with _ | ⟨y, l2'⟩
          · simp [bcdofsWalk, hn]
          · simp [bcdofsWalk, hn]
        · simp [bcdofsWalk, hn]
      · simp [bcdofsWalk, hn]
    | .mixed subs =>
      match hsub : subs[idx]? with
      | some li =>
        simp [bcdofsWalk, hsub, ih]
      | none =>
        simp [bcdofsWalk, hsub]

/-! ### Claims C2, C3, C8 -/

/-- C2, counterexample.  The claim "`bcdofs(bc, ghost=True)` is always a
superset of `bcdofs(bc, ghost=False)`" fails: for a constraint on the second
child of a mixed space whose first child has ghost nodes (1 ghost node here),
the two flags accumulate different offsets (ghost-inclusive `dof_count` = 5
vs owned-only `size * value_size` = 4), so the ghost-exclusive result `{4}`
is not contained in the ghost-inclusive result `{5}`. -/
theorem bcdofs_ghost_superset_cex :
    bcdofs (.mixed [.scalar 1 4 1, .scalar 1 3 0]) [1] [0] true = some [5] ∧
    bcdofs (.mixed [.scalar 1 4 1, .scalar 1 3 0]) [1] [0] false = some [4] ∧
    ¬ ((4 : Int) ∈ ([5] : List Int)) := by
  refine ⟨by decide, by decide, by decide⟩

/-- C2 (amended): whenever the two flags accumulate the same subspace-path
offsets (in particular when the path traverses no mixed composition, or when
the preceding mixed siblings have no ghost dofs), the ghost-inclusive result
is a superset of the ghost-exclusive one, since `ghost=False` then only
filters the constrained nodes down to the owned ones.  In general the two
calls produce indices in two different numbering conventions and neither
need contain the other. -/
theorem bcdofs_ghost_superset_of_offsets_eq (Z : FSpace) (indices : List Nat)
    (nodes : List Int)
    (hw : bcdofsWalk false Z indices 0 none = bcdofsWalk true Z indices 0 none) :
    ∀ lt lf : List Int, bcdofs Z indices nodes true = some lt →
      bcdofs Z indices nodes false = some lf → ∀ x ∈ lf, x ∈ lt := by
  intro lt lf ht hf x hx
  unfold bcdofs at ht hf
  rw [hw] at hf
  cases hwalk : bcdofsWalk true Z indices 0 none with
  | none => rw [hwalk] at ht; exact absurd ht (by simp)
  | some r =>
    obtain ⟨Zf, off, pv⟩ := r
    rw [hwalk] at ht hf
    simp only [Option.some.injEq] at ht hf
    subst ht
    subst hf
    simp only [if_true, if_false, Bool.false_eq_true, ite_false, ite_true] at hx ⊢
    obtain ⟨y, hy, rfl⟩ := List.mem_map.1 hx
    obtain ⟨l, hl, hyl⟩ := List.mem_flatten.1 hy
    obtain ⟨jj, hjj, rfl⟩ := List.mem_map.1 hl
    obtain ⟨n, hn, rfl⟩ := List.mem_map.1 hyl
    have hn' : n ∈ nodes := (List.mem_filter.1 hn).1
    exact List.mem_map.2 ⟨_, List.mem_flatten.2
      ⟨_, List.mem_map.2 ⟨jj, hjj, rfl⟩, List.mem_map.2 ⟨n, hn', rfl⟩⟩, rfl⟩

/-- C2 witness for `bcdofs_ghost_superset_of_offsets_eq`: a plain (no mixed
step) space with ghost nodes — here `bcdofs` returns `[0, 2, 6, 1, 3, 7]`
with `ghost=True` and `[0, 2, 1, 3]` with `ghost=False`, and the theorem
places the ghost-exclusive member 1 in the ghost-inclusive result. -/
theorem bcdofs_ghost_superset_of_offsets_eq_witness :
    (1 : Int) ∈ ([0, 2, 6, 1, 3, 7] : List Int) :=
  bcdofs_ghost_superset_of_offsets_eq (.base (.scalar 2 3 1)) [] [0, 1, 3] (by rfl)
    [0, 2, 6, 1, 3, 7] [0, 2, 1, 3] (by decide) (by decide) 1 (by decide)

/-- C3: for a constraint whose subspace path ends by selecting component `j`
of a `VectorElement` composition of `value_size` `k` (so `bs = k`), `bcdofs`
returns exactly one index per retained constrained node (not `k` per node),
each equal to `node * bs + j + offset`, where `offset` is the offset
accumulated along the path before the component selection. -/
theorem bcdofs_vector_component (Z : FSpace) (pre : List Nat)
    (j k ow gh offP : Nat) (pv : Option Nat) (nodes : List Int) (ghost : Bool)
    (hwalk : bcdofsWalk ghost Z pre 0 none = some (.base (.vector k ow gh), offP, pv))
    (hj : j < k) :
    bcdofs Z (pre ++ [j]) nodes ghost =
      some ((if ghost then nodes else
          nodes.filter (fun n => decide (n < (ow : Int)))).map
        (fun n => n * (k : Int) + (j : Int) + (offP : Int))) ∧
    ((if ghost then nodes else
        nodes.filter (fun n => decide (n < (ow : Int)))).map
      (fun n => n * (k : Int) + (j : Int) + (offP : Int))).length =
      (if ghost then nodes else
        nodes.filter (fun n => decide (n < (ow : Int)))).length := by
  have hw2 : bcdofsWalk ghost Z (pre ++ [j]) 0 none =
      some (.base (.scalar 1 ow gh), offP + j, some k) := by
    rw [bcdofsWalk_append, hwalk]
    simp [bcdofsWalk, hj]
  refine ⟨?_, by simp⟩
  unfold bcdofs
  rw [hw2]
  refine congrArg some ?_
  have hr1 : List.range 1 = [0] := by decide
  simp only [blockSize, numComponents, FSpace.dofDsetSize, FLeaf.owned,
    hr1, List.map_cons, List.map_nil, List.flatten_cons,
    List.flatten_nil, List.append_nil, List.map_map]
  refine List.map_congr_left ?_
  intro n _
  simp only [Function.comp_apply]
  push_cast
  ring

/-- C3 witness: a mixed space whose second child is a 2-vector, constraint on
component 0, ghost-inclusive; prior offset is 3 (the first child's dofs). -/
theorem bcdofs_vector_component_witness :
    bcdofs (.mixed [.scalar 1 3 0, .vector 2 4 1]) [1, 0] [0, 1] true =
      some [3, 5] := by
  have h := bcdofs_vector_component (.mixed [.scalar 1 3 0, .vector 2 4 1]) [1]
    0 2 4 1 3 none [0, 1] true (by decide) (by decide)
  exact h.1.trans (by decide)

/-- C8, counterexample.  The claim "`bcdofs` returns a sorted, duplicate-free
array" fails on sortedness: for a 2-vector space constrained as a whole
(`bs = 2`, two components enumerated) with nodes `[0, 1]`, the concatenation
`[nodes*bs + 0] ++ [nodes*bs + 1] = [0, 2, 1, 3]` is not ascending.  The
sorting/deduplication happens in the callers, via `numpy.unique`
(patch.py lines 496-499 and 649-652), not in `bcdofs` itself. -/
theorem bcdofs_sorted_cex :
    bcdofs (.base (.vector 2 4 0)) [] [0, 1] true = some [0, 2, 1, 3] ∧
    ¬ List.Sorted (· ≤ ·) [(0 : Int), 2, 1, 3] := by
  refine ⟨by decide, by decide⟩

/-- C8 (amended): for either value of the ghost flag, `bcdofs` returns a
duplicate-free list of indices whenever the constraint's node list is
duplicate-free (and the block size is positive); the list is however not
sorted in general — the callers sort and deduplicate it with `numpy.unique`. -/
theorem bcdofs_nodup (Z : FSpace) (indices : List Nat) (nodes : List Int)
    (ghost : Bool) (Zf : FSpace) (off : Nat) (pv : Option Nat)
    (hnd : nodes.Nodup)
    (hwalk : bcdofsWalk ghost Z indices 0 none = some (Zf, off, pv))
    (hbs : 0 < blockSize Zf pv) :
    ∃ res, bcdofs Z indices nodes ghost = some res ∧ res.Nodup := by
  refine ⟨_, by unfold bcdofs; rw [hwalk], ?_⟩
  have hstople : numComponents Zf pv ≤ blockSize Zf pv := by
    cases pv with
    | some k => exact hbs
    | none => simp [blockSize, numComponents]
  have hbne : (blockSize Zf pv : Int) ≠ 0 := by
    exact_mod_cast Nat.pos_iff_ne_zero.1 hbs
  have hnd' : (if ghost then nodes else
      nodes.filter (fun n => decide (n < (Zf.dofDsetSize : Int)))).Nodup := by
    cases ghost with
    | true => simpa using hnd
    | false => simpa using hnd.filter _
  apply List.Nodup.map
  · intro a b hab
    simpa using hab
  · rw [List.nodup_flatten]
    constructor
    · intro l hl
      obtain ⟨jj, _, rfl⟩ := List.mem_map.1 hl
      apply List.Nodup.map
      · intro a b hab
        have hab' : a * (blockSize Zf pv : Int) = b * (blockSize Zf pv : Int) := by
          have := hab
          simp only [add_left_inj] at this
          exact this
        exact mul_right_cancel₀ hbne hab'
      · exact hnd'
    · rw [List.pairwise_map]
      refine (List.pairwise_lt_range _).imp_of_mem ?_
      intro j1 j2 hj1 hj2 hlt
      intro x hx1 hx2
      obtain ⟨n1, _, h1⟩ := List.mem_map.1 hx1
      obtain ⟨n2, _, h2⟩ := List.mem_map.1 hx2
      have heq : n1 * (blockSize Zf pv : Int) + (j1 : Int) =
          n2 * (blockSize Zf pv : Int) + (j2 : Int) := by rw [h1, h2]
      have hd : (n1 - n2) * (blockSize Zf pv : Int) = (j2 : Int) - (j1 : Int) := by
        linear_combination heq
      have hb : (0 : Int) < (blockSize Zf pv : Int) := by exact_mod_cast hbs
      have hj2b : (j2 : Int) < (blockSize Zf pv : Int) := by
        exact_mod_cast lt_of_lt_of_le (List.mem_range.1 hj2) hstople
      have hj12 : (j1 : Int) < (j2 : Int) := by exact_mod_cast hlt
      rcases le_or_lt (n1 - n2) 0 with hle | hgt
      · nlinarith
      · have h1le : (1 : Int) ≤ n1 - n2 := hgt
        nlinarith

/-- C8 witness for `bcdofs_nodup`. -/
theorem bcdofs_nodup_witness :
    ∃ res, bcdofs (.base (.vector 2 4 0)) [] [0, 1] true = some res ∧ res.Nodup :=
  bcdofs_nodup (.base (.vector 2 4 0)) [] [0, 1] true (.base (.vector 2 4 0)) 0 none
    (by decide) (by rfl) (by decide)

/-! ### Helper lemmas for `PlaneSmoother` -/

theorem insertBy_perm {α : Type*} (le : α → α → Bool) (x : α) (l : List α) :
    (insertBy le x l).Perm (x :: l) := by
  induction l with
  | nil => simp [insertBy]
  | cons y ys ih =>
    unfold insertBy
    by_cases h : le y x
    · rw [if_pos h]
      exact (ih.cons y).trans (List.Perm.swap x y ys)
    · rw [if_neg h]

theorem sortedBy_aux_perm {α : Type*} (le : α → α → Bool) (l : List α) :
    ∀ acc : List α, (l.foldl (fun a x => insertBy le x a) acc).Perm (l ++ acc) := by
  induction l with
  | nil => intro acc; simp
  | cons x xs ih =>
    intro acc
    simp only [List.foldl_cons, List.cons_append]
    refine (ih (insertBy le x acc)).trans ?_
    refine (List.Perm.append_left xs (insertBy_perm le x acc)).trans ?_
    exact List.perm_middle

theorem sortedBy_perm {α : Type*} (le : α → α → Bool) (l : List α) :
    (sortedBy le l).Perm l := by
  simpa using sortedBy_aux_perm le l []

theorem sweepSorted_perm (axis : Nat) (dir : Int) (ents : List PEntity) :
    (sweepSorted axis dir ents).Perm ents := by
  unfold sweepSorted
  split
  · exact sortedBy_perm _ _
  · exact sortedBy_perm _ _

theorem foldl_min_bounds {α : Type*} (f : α → ℚ) (l : List α) (a : ℚ) :
    l.foldl (fun m e => min m (f e)) a ≤ a ∧
      ∀ x ∈ l, l.foldl (fun m e => min m (f e)) a ≤ f x := by
  induction l generalizing a with
  | nil => simp
  | cons y ys ih =>
    simp only [List.foldl_cons]
    refine ⟨le_trans (ih (min a (f y))).1 (min_le_left a (f y)), ?_⟩
    intro x hx
    rcases List.mem_cons.1 hx with rfl | hx'
    · exact le_trans (ih (min a (f x))).1 (min_le_right a (f x))
    · exact (ih (min a (f y))).2 x hx'

theorem foldl_max_bounds {α : Type*} (f : α → ℚ) (l : List α) (a : ℚ) :
    a ≤ l.foldl (fun m e => max m (f e)) a ∧
      ∀ x ∈ l, f x ≤ l.foldl (fun m e => max m (f e)) a := by
  induction l generalizing a with
  | nil => simp
  | cons y ys ih =>
    simp only [List.foldl_cons]
    refine ⟨le_trans (le_max_left a (f y)) (ih (max a (f y))).1, ?_⟩
    intro x hx
    rcases List.mem_cons.1 hx with rfl | hx'
    · exact le_trans (le_max_right a (f x)) (ih (max a (f x))).1
    · exact (ih (max a (f y))).2 x hx'

theorem drop_take_append_drop {α : Type*} (pts : List α) (a j : Nat) (h : a ≤ j) :
    (pts.take j).drop a ++ pts.drop j = pts.drop a := by
  rw [List.drop_take]
  have h2 : pts.drop j = (pts.drop a).drop (j - a) := by
    rw [List.drop_drop]
    congr 1
    omega
  rw [h2, List.take_append_drop]

theorem binsOf_flatten {pts : List Nat} :
    ∀ (idx : List Nat) (a : Nat), idx.head? = some a →
      List.Chain' (· ≤ ·) idx → (binsOf pts idx).flatten = pts.drop a := by
  intro idx
  induction idx with
  | nil => intro a ha _; simp at ha
  | cons i tail ih =>
    intro a ha hch
    have hia : i = a := by simpa using ha
    subst hia
    rcases tail with _ | ⟨j, rest⟩
    · simp [binsOf]
    · have hij : i ≤ j := (List.chain'_cons.1 hch).1
      have hch' : List.Chain' (· ≤ ·) (j :: rest) := (List.chain'_cons.1 hch).2
      simp only [binsOf, List.flatten_cons]
      rw [ih j rfl hch']
      exact drop_take_append_drop pts i j hij

theorem binsOf_length (pts : List Nat) :
    ∀ idx : List Nat, idx ≠ [] → (binsOf pts idx).length = idx.length := by
  intro idx
  induction idx with
  | nil => simp
  | cons i tail ih =>
    intro _
    rcases tail with _ | ⟨j, rest⟩
    · simp [binsOf]
    · simp only [binsOf, List.length_cons]
      rw [ih (by simp)]
      simp

theorem linspace_length (minx maxx : ℚ) (ndiv : Nat) :
    (linspace minx maxx ndiv).length = ndiv + 1 := by
  unfold linspace
  split
  · simp [*]
  · simp

theorem linspace_head (minx maxx : ℚ) (ndiv : Nat) :
    (linspace minx maxx ndiv).head? = some minx := by
  unfold linspace
  split
  · rfl
  · rw [List.range_succ_eq_map]
    simp

theorem chain'_le_map_range (f : Nat → ℚ) (n : Nat)
    (hf : ∀ k, k < n → f k ≤ f (k + 1)) :
    List.Chain' (· ≤ ·) ((List.range (n + 1)).map f) := by
  rw [List.chain'_map]
  exact (List.chain'_range_succ (fun a b => f a ≤ f b) n).2 hf

theorem linspace_chain (minx maxx : ℚ) (ndiv : Nat) (h : minx ≤ maxx) :
    List.Chain' (· ≤ ·) (linspace minx maxx ndiv) := by
  unfold linspace
  split
  · simp
  · next hnz =>
    apply chain'_le_map_range
    intro k _
    have hq : (0 : ℚ) ≤ (maxx - minx) / (ndiv : ℚ) :=
      div_nonneg (by linarith) (by positivity)
    have hk : ((k : ℚ)) ≤ ((k + 1 : Nat) : ℚ) := by push_cast; linarith
    have hmul := mul_le_mul_of_nonneg_right hk hq
    rw [mul_div_assoc, mul_div_assoc]
    linarith

theorem searchsortedLeft_mono (l : List ℚ) {d1 d2 : ℚ} (h : d1 ≤ d2) :
    searchsortedLeft l d1 ≤ searchsortedLeft l d2 := by
  unfold searchsortedLeft
  induction l with
  | nil => simp
  | cons c cs ih =>
    simp only [List.filter_cons]
    by_cases hc : c < d1
    · rw [if_pos (by simpa using hc), if_pos (by simp [lt_of_lt_of_le hc h])]
      simpa using ih
    · rw [if_neg (by simpa using hc)]
      by_cases hc2 : c < d2
      · rw [if_pos (by simp [hc2])]
        exact le_trans ih (by simp)
      · rw [if_neg (by simpa using hc2)]
        exact ih

theorem searchsortedLeft_eq_zero (l : List ℚ) (v : ℚ) (h : ∀ c ∈ l, v ≤ c) :
    searchsortedLeft l v = 0 := by
  unfold searchsortedLeft
  rw [List.length_eq_zero, List.filter_eq_nil_iff]
  intro c hc
  simpa using not_lt.2 (h c hc)

/-- Every sweep of `sort_entities` on a chart with at least one eligible
entity yields exactly `ndiv + 1` bins (the `range(ndiv)` slices plus the
trailing bin), which together contain every eligible entity exactly once. -/
theorem sort_entities_partition (chart : List PEntity) (axis : Nat) (dir : Int)
    (ndiv : Nat) (e0 : PEntity) (tl : List PEntity)
    (helig : eligible chart = e0 :: tl) :
    ∃ bins, sort_entities chart axis dir ndiv = some bins ∧
      bins.length = ndiv + 1 ∧
      bins.flatten.Perm ((eligible chart).map PEntity.point) := by
  set minx := tl.foldl (fun m e => min m (axisCoord axis e)) (axisCoord axis e0) with hminx
  set maxx := tl.foldl (fun m e => max m (axisCoord axis e)) (axisCoord axis e0) with hmaxx
  set s := sweepSorted axis dir (e0 :: tl) with hs
  set pts := s.map PEntity.point with hpts
  set cs := s.map (axisCoord axis) with hcs
  set csDir := if dir = -1 then cs.reverse else cs with hcsDir
  set indices := (linspace minx maxx ndiv).map (searchsortedLeft csDir) with hindices
  have heq : sort_entities chart axis dir ndiv = some (binsOf pts indices) := by
    unfold sort_entities
    rw [helig]
  have hilen : indices.length = ndiv + 1 := by
    rw [hindices, List.length_map, linspace_length]
  have hinne : indices ≠ [] := by
    intro hcon
    rw [hcon] at hilen
    simp at hilen
  have hminmax : minx ≤ maxx := by
    calc minx ≤ axisCoord axis e0 :=
          (foldl_min_bounds (axisCoord axis) tl (axisCoord axis e0)).1
      _ ≤ maxx := (foldl_max_bounds (axisCoord axis) tl (axisCoord axis e0)).1
  have hchain : List.Chain' (· ≤ ·) indices := by
    rw [hindices, List.chain'_map]
    exact (linspace_chain minx maxx ndiv hminmax).imp
      (fun a b hab => searchsortedLeft_mono csDir hab)
  have hbound : ∀ c ∈ csDir, minx ≤ c := by
    intro c hc
    have hc' : c ∈ cs := by
      rw [hcsDir] at hc
      split at hc
      · exact List.mem_reverse.1 hc
      · exact hc
    rw [hcs] at hc'
    obtain ⟨e, he, rfl⟩ := List.mem_map.1 hc'
    have he2 : e ∈ (e0 :: tl) := (sweepSorted_perm axis dir (e0 :: tl)).subset he
    rcases List.mem_cons.1 he2 with rfl | htl
    · exact (foldl_min_bounds (axisCoord axis) tl (axisCoord axis e)).1
    · exact (foldl_min_bounds (axisCoord axis) tl (axisCoord axis e0)).2 _ htl
  have hhead : indices.head? = some 0 := by
    rw [hindices, List.head?_map, linspace_head]
    simp [searchsortedLeft_eq_zero csDir minx hbound]
  refine ⟨binsOf pts indices, heq, ?_, ?_⟩
  · rw [binsOf_length pts indices hinne, hilen]
  · rw [binsOf_flatten indices 0 hhead hchain, List.drop_zero, helig, hpts]
    exact (sweepSorted_perm axis dir (e0 :: tl)).map PEntity.point

/-! ### Claims C4, C5 -/

/-- C4, counterexample.  On a chart of 4 eligible unit-square corner
entities, `PlaneSmoother` with sweeps `"0+2:1-3"` returns 7 patches
(`ndiv + 1` bins per sweep: the `range(ndiv)` slices plus the trailing
`entities[indices[-1]:]` bin), not the claimed `2+3 = 5`; two of the patches
are empty; and entity 0 occurs twice in the union (once per sweep), not
exactly once. -/
theorem planeSmoother_sweeps_cex :
    planeSmoother [⟨0, [0, 0], -1⟩, ⟨1, [1, 0], -1⟩, ⟨2, [0, 1], -1⟩, ⟨3, [1, 1], -1⟩]
      ("0+2:1-3".toList) =
      some ([[0, 2], [], [1, 3], [3, 2], [], [], [1, 0]], 7) ∧
    (7 : Nat) ≠ 5 ∧
    ([[0, 2], [], [1, 3], [3, 2], [], [], [1, 0]] : List (List Nat)).flatten.count 0 = 2 ∧
    ([] : List Nat) ∈ ([[0, 2], [], [1, 3], [3, 2], [], [], [1, 0]] : List (List Nat)) := by
  refine ⟨by with_unfolding_all decide, by decide, by decide, by decide⟩

/-- C4 (amended): `PlaneSmoother` with sweeps `"0+2:1-3"` on a topology with
at least one eligible entity returns exactly `(2+1) + (3+1) = 7` patches
(each sweep contributes its `ndiv` slices plus one trailing remainder bin,
and bins may be empty), and the multiset union of all patches contains every
eligible entity exactly twice — exactly once per sweep. -/
theorem planeSmoother_sweeps_0p2_1m3 (chart : List PEntity) (e0 : PEntity)
    (tl : List PEntity) (helig : eligible chart = e0 :: tl) :
    ∃ patches, planeSmoother chart ("0+2:1-3".toList) = some (patches, patches.length) ∧
      patches.length = 7 ∧
      patches.flatten.Perm ((eligible chart).map PEntity.point ++
        (eligible chart).map PEntity.point) := by
  obtain ⟨b1, hb1, hl1, hp1⟩ := sort_entities_partition chart 0 1 2 e0 tl helig
  obtain ⟨b2, hb2, hl2, hp2⟩ := sort_entities_partition chart 1 (-1) 3 e0 tl helig
  have hparse : mapMOpt parseSweep (splitOnColon "0+2:1-3".toList) =
      some [(0, 1, 2), (1, -1, 3)] := by rfl
  have hsweeps : mapMOpt (fun t => sort_entities chart t.1 t.2.1 t.2.2)
      ([(0, 1, 2), (1, -1, 3)] : List (Nat × Int × Nat)) = some [b1, b2] := by
    simp only [mapMOpt]
    rw [hb1, hb2]
  have hps : planeSmoother chart ("0+2:1-3".toList) =
      some (b1 ++ b2, (b1 ++ b2).length) := by
    unfold planeSmoother
    rw [hparse]
    show (match mapMOpt (fun t => sort_entities chart t.1 t.2.1 t.2.2)
        ([(0, 1, 2), (1, -1, 3)] : List (Nat × Int × Nat)) with
      | none => none
      | some binss => some (binss.flatten, binss.flatten.length)) =
      some (b1 ++ b2, (b1 ++ b2).length)
    rw [hsweeps]
    simp
  refine ⟨b1 ++ b2, hps, ?_, ?_⟩
  · simp [hl1, hl2]
  · rw [List.flatten_append]
    exact hp1.append hp2

/-- C4 witness for `planeSmoother_sweeps_0p2_1m3`. -/
theorem planeSmoother_sweeps_0p2_1m3_witness :
    ∃ patches,
      planeSmoother [⟨0, [0, 0], -1⟩, ⟨1, [1, 0], -1⟩, ⟨2, [0, 1], -1⟩, ⟨3, [1, 1], -1⟩]
        ("0+2:1-3".toList) = some (patches, patches.length) ∧
      patches.length = 7 ∧
      patches.flatten.Perm
        ((eligible [⟨0, [0, 0], -1⟩, ⟨1, [1, 0], -1⟩, ⟨2, [0, 1], -1⟩,
            ⟨3, [1, 1], -1⟩]).map PEntity.point ++
          (eligible [⟨0, [0, 0], -1⟩, ⟨1, [1, 0], -1⟩, ⟨2, [0, 1], -1⟩,
            ⟨3, [1, 1], -1⟩]).map PEntity.point) :=
  planeSmoother_sweeps_0p2_1m3 _ ⟨0, [0, 0], -1⟩
    [⟨1, [1, 0], -1⟩, ⟨2, [0, 1], -1⟩, ⟨3, [1, 1], -1⟩] (by rfl)

/-- C5, counterexample.  A sweep with division count 0 (`"0+0"`) does not
fail: `numpy.linspace(minx, maxx, 1)` is `[minx]`, the `range(0)` slice loop
contributes nothing, and the trailing bin `entities[indices[-1]:]` captures
every eligible entity, so the patch constructor silently returns one whole
patch instead of raising an error. -/
theorem planeSmoother_zero_division_cex :
    planeSmoother [⟨0, [0, 0], -1⟩, ⟨1, [1, 0], -1⟩, ⟨2, [0, 1], -1⟩, ⟨3, [1, 1], -1⟩]
      ("0+0".toList) = some ([[0, 2, 1, 3]], 1) := by
  with_unfolding_all decide

/-- C5 (amended): a sweep with division count 0 is not rejected:
`sort_entities` returns exactly one bin — the trailing remainder bin —
containing every eligible entity, and no error is raised (the call fails only
when there are no eligible entities at all, through `min()` on an empty
sequence). -/
theorem sort_entities_zero_divisions (chart : List PEntity) (axis : Nat)
    (dir : Int) (e0 : PEntity) (tl : List PEntity)
    (helig : eligible chart = e0 :: tl) :
    ∃ p, sort_entities chart axis dir 0 = some [p] ∧
      p.Perm ((eligible chart).map PEntity.point) := by
  obtain ⟨bins, hb, hlen, hperm⟩ := sort_entities_partition chart axis dir 0 e0 tl helig
  rcases bins with _ | ⟨p, rest⟩
  · simp at hlen
  · rcases rest with _ | ⟨q, rest'⟩
    · refine ⟨p, hb, ?_⟩
      simpa using hperm
    · simp only [List.length_cons] at hlen
      omega

/-- C5 witness for `sort_entities_zero_divisions`. -/
theorem sort_entities_zero_divisions_witness :
    ∃ p, sort_entities [⟨0, [0, 0], -1⟩, ⟨1, [1, 0], -1⟩] 0 1 0 = some [p] ∧
      p.Perm ((eligible [⟨0, [0, 0], -1⟩, ⟨1, [1, 0], -1⟩]).map PEntity.point) :=
  sort_entities_zero_divisions _ 0 1 ⟨0, [0, 0], -1⟩ [⟨1, [1, 0], -1⟩] (by rfl)

/-! ### Claim C1 -/

/-- C1: for an enabled coefficient of an integral whose (replaced) element is
a mixed element, `set_coefficients` registers, in place, exactly the
coefficients produced by `coefficientStep`: a single undivided argument
(the coefficient itself) when the original coefficient is in the
caller-designated unsplit set, and otherwise one argument per sub-element of
the mixed element — each a freshly created coefficient (a new count, from
`fresh` on) on the function space of the corresponding sub-element. -/
theorem set_coefficients_mixed (unsplit : List Nat) (orig coeff : Coefficient)
    (pos fresh : Nat) (en : List Bool) (red rep : List Coefficient)
    (ps : List Nat) (subs : List UFLElement)
    (hmixed : coeff.element = .mixed subs) :
    set_coefficients unsplit ⟨true :: en⟩ ⟨orig :: red, coeff :: rep, pos :: ps⟩ fresh =
      ((coefficientStep unsplit orig coeff fresh).1 ++
        (set_coefficients unsplit ⟨en⟩ ⟨red, rep, ps⟩
          (coefficientStep unsplit orig coeff fresh).2).1,
       pos :: (set_coefficients unsplit ⟨en⟩ ⟨red, rep, ps⟩
          (coefficientStep unsplit orig coeff fresh).2).2) ∧
    (orig.count ∈ unsplit → (coefficientStep unsplit orig coeff fresh).1 = [coeff]) ∧
    (orig.count ∉ unsplit →
      (coefficientStep unsplit orig coeff fresh).1 =
        subs.enum.map (fun p => ⟨fresh + p.1, coeff.domain, p.2⟩) ∧
      (coefficientStep unsplit orig coeff fresh).1.length = subs.length) := by
  refine ⟨?_, ?_, ?_⟩
  · simp only [set_coefficients, zip4, List.zip_cons_cons, List.map_cons,
      setCoefficientsAux, if_pos]
    rfl
  · intro hmem
    simp [coefficientStep, hmixed, hmem]
  · intro hmem
    constructor
    · simp [coefficientStep, hmixed, hmem]
    · simp [coefficientStep, hmixed, hmem]

/-- C1 witness for `set_coefficients_mixed`: one enabled coefficient whose
element is mixed with two sub-elements, not in the unsplit set. -/
theorem set_coefficients_mixed_witness :
    set_coefficients [7] ⟨[true]⟩
        ⟨[⟨5, 0, .plain 8⟩], [⟨6, 0, .mixed [.plain 1, .plain 2]⟩], [4]⟩ 10 =
      ((coefficientStep [7] ⟨5, 0, .plain 8⟩ ⟨6, 0, .mixed [.plain 1, .plain 2]⟩ 10).1 ++
        (set_coefficients [7] ⟨[]⟩ ⟨[], [], []⟩
          (coefficientStep [7] ⟨5, 0, .plain 8⟩ ⟨6, 0, .mixed [.plain 1, .plain 2]⟩ 10).2).1,
       4 :: (set_coefficients [7] ⟨[]⟩ ⟨[], [], []⟩
          (coefficientStep [7] ⟨5, 0, .plain 8⟩ ⟨6, 0, .mixed [.plain 1, .plain 2]⟩ 10).2).2) ∧
    ((5 : Nat) ∈ [(7 : Nat)] →
      (coefficientStep [7] ⟨5, 0, .plain 8⟩ ⟨6, 0, .mixed [.plain 1, .plain 2]⟩ 10).1 =
        [⟨6, 0, .mixed [.plain 1, .plain 2]⟩]) ∧
    ((5 : Nat) ∉ [(7 : Nat)] →
      (coefficientStep [7] ⟨5, 0, .plain 8⟩ ⟨6, 0, .mixed [.plain 1, .plain 2]⟩ 10).1 =
        ([.plain 1, .plain 2] : List UFLElement).enum.map
          (fun p => ⟨10 + p.1, 0, p.2⟩) ∧
      (coefficientStep [7] ⟨5, 0, .plain 8⟩ ⟨6, 0, .mixed [.plain 1, .plain 2]⟩ 10).1.length =
        ([.plain 1, .plain 2] : List UFLElement).length) :=
  set_coefficients_mixed [7] ⟨5, 0, .plain 8⟩ ⟨6, 0, .mixed [.plain 1, .plain 2]⟩
    4 10 [] [] [] [] [.plain 1, .plain 2] rfl

/-! ### Claims C6, C7, C9, C10 -/

theorem matrixKernelLoop_error (kinfos : List KInfo)
    (hbad : ∃ k ∈ kinfos, k.subdomainId ≠ .otherwise ∨
      (k.integralType ≠ .cell ∧ k.integralType ≠ .interiorFacet)) :
    ∃ e, matrixKernelLoop kinfos = .error e := by
  induction kinfos with
  | nil => simp at hbad
  | cons k rest ih =>
    obtain ⟨k', hk', hbadk⟩ := hbad
    unfold matrixKernelLoop
    by_cases h1 : k.subdomainId ≠ .otherwise
    · exact ⟨.subdomain, by rw [if_pos h1]⟩
    · rw [if_neg h1]
      by_cases h2 : ¬ (k.integralType = .cell ∨ k.integralType = .interiorFacet)
      · exact ⟨.integralKind, by rw [if_pos h2]⟩
      · rw [if_neg h2]
        have hk'rest : k' ∈ rest := by
          rcases List.mem_cons.1 hk' with rfl | h
          · exfalso
            rcases hbadk with hs | ⟨hc, hi⟩
            · exact h1 hs
            · rcases not_not.1 h2 with hc' | hi'
              · exact hc hc'
              · exact hi hi'
          · exact h
        obtain ⟨e, he⟩ := ih ⟨k', hk'rest, hbadk⟩
        refine ⟨e, ?_⟩
        rw [he]

/-- C6: if any kernel produced for the form has a sub-domain restriction
other than `"otherwise"`, or an integral type outside {cell, interior_facet}
for the matrix path (outside {cell} for the residual path), the compiler
raises `NotImplementedError` and returns no kernels at all (the `Except`
result is an error, not a partial list). -/
theorem funptr_rejects_invalid_integrals (kinfos : List KInfo) (k : KInfo)
    (test : Nat) :
    ((∃ k' ∈ kinfos, k'.subdomainId ≠ .otherwise ∨
        (k'.integralType ≠ .cell ∧ k'.integralType ≠ .interiorFacet)) →
      ∃ e, matrix_funptr test test kinfos = .error e) ∧
    ((k.subdomainId ≠ .otherwise ∨ k.integralType ≠ .cell) →
      ∃ e, residual_funptr [test] (some test) [k] = .error e) := by
  constructor
  · intro hbad
    unfold matrix_funptr
    rw [if_neg (by simp)]
    exact matrixKernelLoop_error kinfos hbad
  · intro hbad
    by_cases h1 : k.subdomainId ≠ .otherwise
    · exact ⟨.subdomain, by simp [residual_funptr, h1]⟩
    · have h2 : k.integralType ≠ .cell := by tauto
      exact ⟨.integralKind, by simp [residual_funptr, h1, h2]⟩

/-- C6 witness for `funptr_rejects_invalid_integrals`: a kernel restricted to
sub-domain 3 on the matrix path and an exterior-facet kernel on the residual
path. -/
theorem funptr_rejects_invalid_integrals_witness :
    (∃ e, matrix_funptr 0 0 [⟨.sub 3, .cell⟩] = .error e) ∧
    (∃ e, residual_funptr [0] (some 0) [⟨.otherwise, .exteriorFacet⟩] = .error e) :=
  ⟨(funptr_rejects_invalid_integrals [⟨.sub 3, .cell⟩] ⟨.otherwise, .exteriorFacet⟩ 0).1
      ⟨⟨.sub 3, .cell⟩, by decide, by decide⟩,
   (funptr_rejects_invalid_integrals [⟨.sub 3, .cell⟩] ⟨.otherwise, .exteriorFacet⟩ 0).2
      (by decide)⟩

/-- C7: `JITModule._cache_key` is `None` for every input, so compiling
through the (spec-modelled) pyop2 cache layer never hits nor populates the
cache: every call specializes from scratch (`compile args`) and leaves the
cache — the only state shared between two sequential compilations — exactly
as it was. -/
theorem jit_cache_key_none :
    ∀ (compile : List Nat → Nat) (cache : List (List Nat × Nat)) (args : List Nat),
      JITModule_cache_key args = none ∧
      jitCompile compile cache args = (compile args, cache) :=
  fun _ _ _ => ⟨rfl, rfl⟩

theorem foldl_const {α β : Type*} (l : List β) (d : α) :
    l.foldl (fun a _ => a) d = d := by
  induction l generalizing d with
  | nil => rfl
  | cons x xs ih =>
    rw [List.foldl_cons]
    exact ih d

/-- C9: the scatter emitted for the vector target is masked.  When the
index-map entry is negative, no write is performed and the destination is
unchanged; and in all cases the scatter writes only at the `dim` addresses
`ind + o` it targets, so everything else is left untouched. -/
theorem c_buffer_scatter_vec_masked (isWrite : Bool) (dim : Nat) (mapVal : Int)
    (dest : Int → Int) (ind : Int) (buf : Nat → Int) (i0 mx : Nat) :
    (mapVal < 0 →
      c_buffer_scatter_vec_sem isWrite dim mapVal dest ind buf i0 mx = dest) ∧
    (∀ a : Int, (∀ o : Nat, o < dim → a ≠ ind + (o : Int)) →
      c_buffer_scatter_vec_sem isWrite dim mapVal dest ind buf i0 mx a = dest a) := by
  constructor
  · intro hneg
    have hcond : ¬ (0 ≤ mapVal) := not_le.2 hneg
    unfold c_buffer_scatter_vec_sem
    simp only [if_neg hcond]
    exact foldl_const _ _
  · intro a ha
    unfold c_buffer_scatter_vec_sem
    have key : ∀ (l : List Nat) (d : Int → Int), (∀ o ∈ l, a ≠ ind + (o : Int)) →
        (l.foldl (fun d (o : Nat) =>
          if 0 ≤ mapVal then
            fun a' => if a' = ind + (o : Int)
              then (if isWrite then buf (i0 * dim + o + mx * dim)
                    else d a' + buf (i0 * dim + o + mx * dim))
              else d a'
          else d) d) a = d a := by
      intro l
      induction l with
      | nil => intro d _; rfl
      | cons o os ih =>
        intro d hd
        simp only [List.foldl_cons]
        rw [ih _ (fun o' ho' => hd o' (List.mem_cons_of_mem _ ho'))]
        have hne : a ≠ ind + (o : Int) := hd o (List.mem_cons_self _ _)
        by_cases hm : 0 ≤ mapVal
        · rw [if_pos hm]
          simp [hne]
        · rw [if_neg hm]
    exact key (List.range dim) dest (fun o ho => ha o (List.mem_range.1 ho))

/-- C9 witness for `c_buffer_scatter_vec_masked`: a negative map entry leaves
the zero destination untouched, and with a positive map entry an address
outside the written slot keeps its value. -/
theorem c_buffer_scatter_vec_masked_witness :
    c_buffer_scatter_vec_sem true 2 (-1) (fun _ => 0) 5 (fun _ => 7) 0 0 =
      (fun _ => (0 : Int)) ∧
    c_buffer_scatter_vec_sem true 2 3 (fun _ => 0) 5 (fun _ => 7) 0 0 9 = 0 :=
  ⟨(c_buffer_scatter_vec_masked true 2 (-1) (fun _ => 0) 5 (fun _ => 7) 0 0).1
      (by decide),
   (c_buffer_scatter_vec_masked true 2 3 (fun _ => 0) 5 (fun _ => 7) 0 0).2 9
      (by decide)⟩

/-- C10: `residual_funptr` requires a non-`None` state: with `state = None`
the call fails with `AttributeError` at `state.function_space()` (line 278),
which runs before the `if state is not None` test (line 281), for every form
and regardless of what `compile_form` would return; with `state = None` no
input whatsoever produces a success, so the `interface = None` compilation
path is unreachable. -/
theorem residual_funptr_none_state :
    ∀ (test : Nat) (kinfos : List KInfo),
      residual_funptr [test] none kinfos = .error .attributeError ∧
      ∀ (spaces : List Nat) (ks : List KInfo), ∃ e,
        residual_funptr spaces none ks = Except.error e := by
  intro test kinfos
  refine ⟨rfl, ?_⟩
  intro spaces ks
  match spaces with
  | [] => exact ⟨.unpack, rfl⟩
  | [t] => exact ⟨.attributeError, rfl⟩
  | t1 :: t2 :: rest => exact ⟨.unpack, rfl⟩

end Patch
